import Mathlib

/-!
# PLAN.EX — verification of the planner/habits state engine

Shallow embedding of the reducer-driven domain stores and the derived
statistics engine of the PLAN.EX productivity application.

Modelling conventions:
* ISO date-only strings are modelled as integer day indices (days since
  1970-01-01 UTC midnight); 1970-01-01 was a Thursday, so the JS
  `Date.getDay` weekday of day `d` is `(d + 4) % 7` (0 = Sunday).
  Habit creation timestamps are modelled at day granularity.
* Full ISO timestamps produced by `new Date().toISOString()` are passed in
  explicitly as a `now : String` argument to each state transition.
* JS objects used as string-keyed maps (`completionHistory`) and JS `Map`s
  (`habitLogs`) are modelled as association lists with replace-on-set
  semantics, matching the unique-key discipline of the source.
* JS floating point weights (`1.05 ** i`) are modelled as exact rationals
  (`21/20 ^ i`).
-/

namespace Planex

-- ================== PLANNER DATA MODEL (src/src/components/layout/Sidebar.tsx, types section) ==================

inductive TaskStatus where
  | todo
  | inProgress
  | review
  | done
deriving DecidableEq

structure Task where
  id : String
  text : String
  status : TaskStatus
  createdAt : String
  updatedAt : String
deriving DecidableEq

structure Unit where
  id : String
  title : String
  order : Int
  tasks : List Task
deriving DecidableEq

structure Exam where
  id : String
  title : String
  examDateISO : String
deriving DecidableEq

structure Course where
  id : String
  code : Option String
  title : String
  color : Option String
  units : List Unit
  exams : List Exam
  createdAt : String
  updatedAt : String
deriving DecidableEq

/-- JS object `Record<string, string>` mapping task ids to ISO timestamps,
modelled as an association list with unique keys. -/
abbrev History := List (String × String)

structure CompletionState where
  completedTaskIds : List String
  completionHistory : History
deriving DecidableEq

structure UndoSnapshot where
  timestamp : String
  completedTaskIds : List String
  completionHistory : History
deriving DecidableEq

structure LectureNoteMeta where
  id : String
  courseId : String
  name : String
deriving DecidableEq

abbrev PersonalTask := Task

structure PlannerState where
  courses : List Course
  completionState : CompletionState
  undoStack : List UndoSnapshot
  personalTasks : List PersonalTask
  lectureNotesMeta : List LectureNoteMeta
  isLoading : Bool
  error : Option String
deriving DecidableEq

namespace LIMITS

def MAX_COURSES : Nat := 20

def MAX_UNDO_STACK : Nat := 15

end LIMITS

def COURSE_COLORS : List String :=
  ["#ef4444", "#f97316", "#f59e0b", "#eab308",
   "#84cc16", "#22c55e", "#10b981", "#14b8a6",
   "#06b6d4", "#0ea5e9", "#3b82f6", "#6366f1",
   "#8b5cf6", "#a855f7", "#d946ef", "#ec4899"]

-- ================== JS HELPERS ==================

/-- JS `delete obj[k]` on a unique-keyed object: drop the binding for `k`. -/
def histDelete (h : History) (k : String) : History :=
  h.filter (fun p => p.1 != k)

/-- JS `{...obj, [k]: v}` on a unique-keyed object: replace in place if the
key exists, append otherwise. -/
def histSet (h : History) (k v : String) : History :=
  if h.any (fun p => p.1 == k) then
    h.map (fun p => if p.1 == k then (k, v) else p)
  else
    h ++ [(k, v)]

/-- Lookup in a JS object modelled as an association list. -/
def histLookup (h : History) (k : String) : Option String :=
  (h.find? (fun p => p.1 == k)).map (fun p => p.2)

/-- JS `arr.slice(-k)` for `k ≥ 0`: the last `k` elements (all of them when
the array is shorter). Nat subtraction realises `max (length - k) 0`. -/
def jsSliceNeg {α : Type} (l : List α) (k : Nat) : List α :=
  l.drop (l.length - k)

-- ================== PLANNER REDUCER (src/src/context/PlannerContext.tsx, plannerReducer) ==================

inductive PlannerAction where
  | setError (payload : Option String)
  | addCourse (payload : Course)
  | deleteCourse (payload : String)
  | deleteUnit (courseId unitId : String)
  | deleteTask (courseId unitId taskId : String)
  | toggleTaskCompletion (payload : String)
  | updateTaskStatus (taskId : String) (status : TaskStatus) (courseId unitId : String)
  | pushUndoSnapshot
  | undo

/-- The task rewrite applied by TOGGLE_TASK_COMPLETION and UPDATE_TASK_STATUS:
`t.id === taskId ? { ...t, status, updatedAt: now } : t`. -/
def updTask (taskId : String) (status : TaskStatus) (now : String) (t : Task) : Task :=
  if t.id == taskId then { t with status := status, updatedAt := now } else t

/-- The course-list rewrite shared (verbatim in the source) by the
TOGGLE_TASK_COMPLETION inner update and the UPDATE_TASK_STATUS branch:
map courses matching `courseId`, within them units matching `unitId`, within
them tasks matching `taskId`, setting the status. -/
def updateTaskStatusInCourses (courses : List Course) (courseId unitId taskId : String)
    (status : TaskStatus) (now : String) : List Course :=
  courses.map fun c =>
    if c.id == courseId then
      { c with units := c.units.map fun u =>
          if u.id == unitId then
            { u with tasks := u.tasks.map (updTask taskId status now) }
          else u }
    else c

/-- The TOGGLE_TASK_COMPLETION course scan: for each course, find the first
unit containing the task; on a hit, rebuild from the ORIGINAL course list
(the JS loop assigns `newCourses = state.courses.map(...)` and its `break`
only exits the inner unit loop, so a later hit overwrites an earlier one). -/
def toggleCoursesUpdate (courses : List Course) (taskId : String)
    (newStatus : TaskStatus) (now : String) : List Course :=
  courses.foldl
    (fun acc course =>
      match course.units.find? (fun u => u.tasks.any (fun t => t.id == taskId)) with
      | some unit => updateTaskStatusInCourses courses course.id unit.id taskId newStatus now
      | none => acc)
    courses

def plannerReducer (state : PlannerState) (action : PlannerAction) (now : String) : PlannerState :=
  match action with
  | .setError payload =>
      { state with error := payload }
  | .addCourse payload =>
      { state with courses := state.courses ++ [payload] }
  | .deleteCourse payload =>
      { state with courses := state.courses.filter (fun c => c.id != payload) }
  | .deleteUnit courseId unitId =>
      { state with courses := state.courses.map fun c =>
          if c.id == courseId then
            { c with units := c.units.filter (fun u => u.id != unitId), updatedAt := now }
          else c }
  | .deleteTask courseId unitId taskId =>
      let newCompletedIds := state.completionState.completedTaskIds.filter (fun id => id != taskId)
      let newHistory := histDelete state.completionState.completionHistory taskId
      { state with
        courses := state.courses.map fun c =>
          if c.id == courseId then
            { c with
              units := c.units.map fun u =>
                if u.id == unitId then
                  { u with tasks := u.tasks.filter (fun t => t.id != taskId) }
                else u,
              updatedAt := now }
          else c,
        completionState := { completedTaskIds := newCompletedIds, completionHistory := newHistory } }
  | .toggleTaskCompletion taskId =>
      let isCompleted := state.completionState.completedTaskIds.contains taskId
      let newCompletedIds :=
        if isCompleted then
          state.completionState.completedTaskIds.filter (fun id => id != taskId)
        else
          state.completionState.completedTaskIds ++ [taskId]
      let newHistory :=
        if isCompleted then
          histDelete state.completionState.completionHistory taskId
        else
          histSet state.completionState.completionHistory taskId now
      let newStatus : TaskStatus := if isCompleted then .todo else .done
      { state with
        courses := toggleCoursesUpdate state.courses taskId newStatus now,
        completionState := { completedTaskIds := newCompletedIds, completionHistory := newHistory } }
  | .updateTaskStatus taskId status courseId unitId =>
      let ids := state.completionState.completedTaskIds
      let hist := state.completionState.completionHistory
      let pair :=
        if status = .done then
          if ids.contains taskId then (ids, hist)
          else (ids ++ [taskId], histSet hist taskId now)
        else
          if ids.contains taskId then (ids.filter (fun id => id != taskId), histDelete hist taskId)
          else (ids, hist)
      { state with
        courses := updateTaskStatusInCourses state.courses courseId unitId taskId status now,
        completionState := { completedTaskIds := pair.1, completionHistory := pair.2 } }
  | .pushUndoSnapshot =>
      let snapshot : UndoSnapshot :=
        { timestamp := now,
          completedTaskIds := state.completionState.completedTaskIds,
          completionHistory := state.completionState.completionHistory }
      { state with
        undoStack := jsSliceNeg state.undoStack (LIMITS.MAX_UNDO_STACK - 1) ++ [snapshot] }
  | .undo =>
      if state.undoStack.length = 0 then state
      else
        let lastSnapshot := (state.undoStack.getLast?).getD
          { timestamp := "", completedTaskIds := [], completionHistory := [] }
        { state with
          completionState :=
            { completedTaskIds := lastSnapshot.completedTaskIds,
              completionHistory := lastSnapshot.completionHistory },
          undoStack := state.undoStack.dropLast }

-- ================== PROVIDER-LEVEL ACTIONS (PlannerProvider callbacks) ==================

def capacityErrorMsg : String :=
  "Maksimum " ++ toString LIMITS.MAX_COURSES ++ " ders ekleyebilirsiniz."

/-- `addCourse(title, code?)`: capacity check, then build the course with the
round-robin palette color and one default unit and dispatch ADD_COURSE. The
generated ids and the clock are passed in explicitly. -/
def addCourse (s : PlannerState) (title : String) (code : Option String)
    (newCourseId newUnitId now : String) : PlannerState :=
  if s.courses.length ≥ LIMITS.MAX_COURSES then
    plannerReducer s (.setError (some capacityErrorMsg)) now
  else
    let colorIndex := s.courses.length % COURSE_COLORS.length
    let course : Course :=
      { id := newCourseId, code := code, title := title,
        color := some (COURSE_COLORS.getD colorIndex ""),
        units := [{ id := newUnitId, title := "Bölüm 1", order := 0, tasks := [] }],
        exams := [], createdAt := now, updatedAt := now }
    plannerReducer s (.addCourse course) now

/-- `toggleTaskCompletion(taskId)`: dispatches PUSH_UNDO_SNAPSHOT, then
TOGGLE_TASK_COMPLETION. -/
def toggleTaskCompletion (s : PlannerState) (taskId now : String) : PlannerState :=
  plannerReducer (plannerReducer s .pushUndoSnapshot now) (.toggleTaskCompletion taskId) now

/-- `updateTaskStatus(taskId, status, courseId, unitId)`: dispatches
PUSH_UNDO_SNAPSHOT, then UPDATE_TASK_STATUS. -/
def updateTaskStatus (s : PlannerState) (taskId : String) (status : TaskStatus)
    (courseId unitId now : String) : PlannerState :=
  plannerReducer (plannerReducer s .pushUndoSnapshot now) (.updateTaskStatus taskId status courseId unitId) now

/-- `undo()`: dispatches UNDO. -/
def undo (s : PlannerState) (now : String) : PlannerState :=
  plannerReducer s .undo now

-- ================== HABITS DATA MODEL (src/src/components/layout/Sidebar.tsx, habit types) ==================

inductive HabitType where
  | boolean
  | numeric
deriving DecidableEq

inductive FrequencyRule where
  | weeklyTarget (timesPerWeek : Int)
  | specificDays (days : List Int)
  | everyXDays (interval : Int)
deriving DecidableEq

structure Habit where
  id : String
  title : String
  type : HabitType
  target : Option ℚ
  frequency : FrequencyRule
  /-- Creation date, modelled as a day index (see module header). -/
  createdAt : Int
deriving DecidableEq

structure HabitLog where
  habitId : String
  /-- Log day, modelled as a day index. -/
  dateISO : Int
  done : Option Bool
  value : Option ℚ
  timestamp : String
deriving DecidableEq

-- ================== DATE / JS NUMBER HELPERS (src/unnamed/part_007, date utilities) ==================

/-- JS `Date.getDay()` of a day index: 1970-01-01 (day 0) was a Thursday. -/
def jsGetDay (d : Int) : Int :=
  (d + 4).emod 7

/-- `getLastNDays(n)` relative to an explicit `today`: the `n` days ending at
`today`, oldest first (the JS loop pushes `today - i` for `i = n-1 .. 0`). -/
def getLastNDays (n : Nat) (today : Int) : List Int :=
  (List.range n).map (fun i => today - ((n - 1 - i : Nat) : Int))

/-- JS `x || d` for an optional number: `d` when the value is absent or `0`
(zero is falsy in JS). -/
def jsOrQ (x : Option ℚ) (d : ℚ) : ℚ :=
  match x with
  | some v => if v = 0 then d else v
  | none => d

/-- JS `Math.round`: round half toward positive infinity. -/
def jsRound (x : ℚ) : Int :=
  ⌊x + 1 / 2⌋

/-- `new Map(logs.map(log => [log.dateISO, log]))` lookup: with duplicate
dates the LAST entry wins, so search the reversed list. -/
def logLookup (logs : List HabitLog) (d : Int) : Option HabitLog :=
  logs.reverse.find? (fun l => l.dateISO == d)

-- ================== DERIVED STATISTICS (src/unnamed/part_007, habit utilities) ==================

def isHabitDueOnDate (habit : Habit) (dateISO : Int) : Bool :=
  match habit.frequency with
  | .weeklyTarget _ => true
  | .specificDays days => days.contains (jsGetDay dateISO)
  | .everyXDays interval =>
      let diffDays := dateISO - habit.createdAt
      decide (diffDays ≥ 0) && decide (diffDays.emod interval = 0)

def isHabitCompleted (habit : Habit) (log : Option HabitLog) : Bool :=
  match log with
  | none => false
  | some log =>
      match habit.type with
      | .boolean => log.done == some true
      | .numeric => decide (jsOrQ log.value 0 ≥ jsOrQ habit.target 1)

/-- Accumulator of the backward walk in `calculateHabitStreak`. -/
structure StreakAcc where
  currentStreak : Nat
  bestStreak : Nat
  tempStreak : Nat
  consecutiveMisses : Nat
deriving DecidableEq

/-- One iteration of the `calculateHabitStreak` loop at offset `i`
(the walk visits `endDate - i`). -/
def streakStep (habit : Habit) (logs : List HabitLog) (endDate : Int)
    (acc : StreakAcc) (i : Nat) : StreakAcc :=
  let dateISO := endDate - i
  let log := logLookup logs dateISO
  if isHabitDueOnDate habit dateISO then
    if isHabitCompleted habit log then
      { acc with
        tempStreak := acc.tempStreak + 1,
        consecutiveMisses := 0,
        currentStreak :=
          if i < 30 then acc.tempStreak + 1 else acc.currentStreak }
    else
      let misses := acc.consecutiveMisses + 1
      match habit.frequency with
      | .weeklyTarget _ =>
          if misses > 7 then
            { acc with
              consecutiveMisses := misses,
              bestStreak := max acc.bestStreak acc.tempStreak,
              tempStreak := 0 }
          else
            { acc with consecutiveMisses := misses }
      | _ =>
          { acc with
            consecutiveMisses := misses,
            bestStreak := max acc.bestStreak acc.tempStreak,
            tempStreak := 0 }
  else acc

/-- `calculateHabitStreak(habit, logs, endDate)`: walk backward 365 days from
`endDate`; returns `(current, best)`. -/
def calculateHabitStreak (habit : Habit) (logs : List HabitLog) (endDate : Int) : Nat × Nat :=
  let final := (List.range 365).foldl (streakStep habit logs endDate) ⟨0, 0, 0, 0⟩
  (final.currentStreak, max final.bestStreak final.tempStreak)

/-- `calculateHabitScore(habit, logs, daysToConsider)` relative to an explicit
`today`: recency-weighted completion ratio with weight `1.05^index = (21/20)^index`. -/
def calculateHabitScore (habit : Habit) (logs : List HabitLog) (today : Int)
    (daysToConsider : Nat) : Int :=
  let recentDays := getLastNDays daysToConsider today
  let acc := (recentDays.zip (List.range recentDays.length)).foldl
    (fun acc p =>
      let weight : ℚ := (21 / 20 : ℚ) ^ p.2
      if isHabitDueOnDate habit p.1 then
        if isHabitCompleted habit (logLookup logs p.1) then
          (acc.1 + weight, acc.2 + weight)
        else
          (acc.1 + weight, acc.2)
      else acc)
    ((0 : ℚ), (0 : ℚ))
  if acc.1 = 0 then 100 else jsRound (acc.2 / acc.1 * 100)

-- ================== HABITS REDUCER (src/src/context/PlannerContext.tsx, habitsReducer) ==================

/-- `state.habitLogs` JS `Map<string, HabitLog[]>`, modelled as an
association list with unique keys. -/
abbrev LogMap := List (String × List HabitLog)

/-- JS `map.get(k) || []`. -/
def mapGet (m : LogMap) (k : String) : List HabitLog :=
  ((m.find? (fun p => p.1 == k)).map (fun p => p.2)).getD []

/-- JS `new Map(m); m.set(k, v)`: replace the binding if the key exists,
append otherwise. -/
def mapSet (m : LogMap) (k : String) (v : List HabitLog) : LogMap :=
  if m.any (fun p => p.1 == k) then
    m.map (fun p => if p.1 == k then (k, v) else p)
  else
    m ++ [(k, v)]

structure HabitsState where
  habits : List Habit
  habitLogs : LogMap
  isLoading : Bool
  error : Option String
deriving DecidableEq

inductive HabitsAction where
  | setError (payload : Option String)
  | logHabit (payload : HabitLog)

def habitsReducer (state : HabitsState) (action : HabitsAction) : HabitsState :=
  match action with
  | .setError payload =>
      { state with error := payload }
  | .logHabit payload =>
      let existingLogs := mapGet state.habitLogs payload.habitId
      let filteredLogs := existingLogs.filter (fun l => l.dateISO != payload.dateISO)
      { state with habitLogs := mapSet state.habitLogs payload.habitId (filteredLogs ++ [payload]) }

/-- Provider-level `logHabit(habitId, dateISO, done?, value?)`: build the log
with the current timestamp and dispatch LOG_HABIT (success path of the
record-store write). -/
def logHabit (s : HabitsState) (habitId : String) (dateISO : Int)
    (done : Option Bool) (value : Option ℚ) (now : String) : HabitsState :=
  habitsReducer s (.logHabit
    { habitId := habitId, dateISO := dateISO, done := done, value := value, timestamp := now })

-- ================== INVARIANTS (spec sections 3 and 8) ==================

/-- Flattened task list of a single course. -/
def courseTasks (c : Course) : List Task :=
  c.units.flatMap (fun u => u.tasks)

/-- Flattened task list of the whole course store. -/
def tasksOf (courses : List Course) : List Task :=
  courses.flatMap courseTasks

/-- Number of task occurrences with id `taskId` inside one unit. -/
def cntU (taskId : String) (u : Unit) : Nat :=
  u.tasks.countP (fun t => t.id == taskId)

/-- Number of task occurrences with id `taskId` inside one course. -/
def cntC (taskId : String) (c : Course) : Nat :=
  (courseTasks c).countP (fun t => t.id == taskId)

/-- Number of task occurrences with id `taskId` in the whole store. -/
def cntTask (taskId : String) (courses : List Course) : Nat :=
  (tasksOf courses).countP (fun t => t.id == taskId)

/-- Synchronization invariant: `task.status === 'done' ⟺ task.id ∈ completedTaskIds`
for every task stored in any unit of any course. -/
def syncInvariant (s : PlannerState) : Prop :=
  ∀ c ∈ s.courses, ∀ u ∈ c.units, ∀ t ∈ u.tasks,
    (t.id ∈ s.completionState.completedTaskIds ↔ t.status = TaskStatus.done)

instance (s : PlannerState) : Decidable (syncInvariant s) :=
  inferInstanceAs (Decidable (∀ c ∈ s.courses, ∀ u ∈ c.units, ∀ t ∈ u.tasks,
    (t.id ∈ s.completionState.completedTaskIds ↔ t.status = TaskStatus.done)))

/-- Referential invariant: every completed id names a task that exists in
some unit's task list. -/
def refInvariant (s : PlannerState) : Prop :=
  ∀ id ∈ s.completionState.completedTaskIds,
    ∃ c ∈ s.courses, ∃ u ∈ c.units, ∃ t ∈ u.tasks, t.id = id

instance (s : PlannerState) : Decidable (refInvariant s) :=
  inferInstanceAs (Decidable (∀ id ∈ s.completionState.completedTaskIds,
    ∃ c ∈ s.courses, ∃ u ∈ c.units, ∃ t ∈ u.tasks, t.id = id))

/-- Global uniqueness of task ids across the whole store (spec §3:
"Task/Unit/Exam ids are globally unique across the whole store"). -/
def taskIdsNodup (courses : List Course) : Prop :=
  ((tasksOf courses).map Task.id).Nodup

instance (courses : List Course) : Decidable (taskIdsNodup courses) :=
  inferInstanceAs (Decidable ((tasksOf courses).map Task.id).Nodup)

/-- `courseId`/`unitId` genuinely locate a task with id `taskId`. -/
def locatesTask (courses : List Course) (courseId unitId taskId : String) : Prop :=
  ∃ c ∈ courses, c.id = courseId ∧ ∃ u ∈ c.units, u.id = unitId ∧ ∃ t ∈ u.tasks, t.id = taskId

instance (courses : List Course) (courseId unitId taskId : String) :
    Decidable (locatesTask courses courseId unitId taskId) :=
  inferInstanceAs (Decidable (∃ c ∈ courses, c.id = courseId ∧
    ∃ u ∈ c.units, u.id = unitId ∧ ∃ t ∈ u.tasks, t.id = taskId))

/-- No stored task carries id `taskId`. -/
def taskAbsent (courses : List Course) (taskId : String) : Prop :=
  ∀ t ∈ tasksOf courses, t.id ≠ taskId

instance (courses : List Course) (taskId : String) : Decidable (taskAbsent courses taskId) :=
  inferInstanceAs (Decidable (∀ t ∈ tasksOf courses, t.id ≠ taskId))

-- ================== CONCRETE STATES USED BY COUNTEREXAMPLES AND WITNESSES ==================

def mkTask (i : String) (st : TaskStatus) : Task :=
  { id := i, text := "x", status := st, createdAt := "d", updatedAt := "d" }

def mkUnit (i : String) (ts : List Task) : Unit :=
  { id := i, title := "U", order := 0, tasks := ts }

def mkCourse (i : String) (us : List Unit) : Course :=
  { id := i, code := none, title := "C", color := none, units := us, exams := [],
    createdAt := "d", updatedAt := "d" }

def mkState (cs : List Course) (ids : List String) (hist : History) : PlannerState :=
  { courses := cs, completionState := { completedTaskIds := ids, completionHistory := hist },
    undoStack := [], personalTasks := [], lectureNotesMeta := [],
    isLoading := false, error := none }

/-- Two courses holding distinct task occurrences that share the id "t1". -/
def dupIdState : PlannerState :=
  mkState
    [mkCourse "c1" [mkUnit "u1" [mkTask "t1" .todo]],
     mkCourse "c2" [mkUnit "u2" [mkTask "t1" .todo]]]
    [] []

/-- One course, one unit, one todo task "t1". -/
def singleTaskState : PlannerState :=
  mkState [mkCourse "c1" [mkUnit "u1" [mkTask "t1" .todo]]] [] []

/-- One course whose single task "t1" is completed and recorded. -/
def completedTaskState : PlannerState :=
  mkState [mkCourse "c1" [mkUnit "u1" [mkTask "t1" .done]]] ["t1"] [("t1", "d")]

def fullCourseState : PlannerState :=
  mkState (List.replicate 20 (mkCourse "c0" [])) [] []

def emptyPlannerState : PlannerState :=
  mkState [] [] []

def everyTwoDaysHabit : Habit :=
  { id := "h", title := "H", type := .boolean, target := none,
    frequency := .everyXDays 2, createdAt := 0 }

/-- Boolean habit due on Mondays, Wednesdays and Fridays (getDay 1, 3, 5). -/
def mwfHabit : Habit :=
  { id := "h1", title := "H", type := .boolean, target := none,
    frequency := .specificDays [1, 3, 5], createdAt := 0 }

/-- The nine Mon/Wed/Fri due days of the three weeks ending on day 1002
(a Friday: `jsGetDay 1002 = 5`). -/
def mwfDays : List Int := [984, 986, 988, 991, 993, 995, 998, 1000, 1002]

/-- Exactly one completed log on each of the nine due days, no other logs. -/
def mwfLogs : List HabitLog :=
  mwfDays.map (fun d =>
    { habitId := "h1", dateISO := d, done := some true, value := none, timestamp := "t" })

/-- `mwfLogs` plus one extra completed log 40 days before the end date,
outside the 30-day current-streak window. -/
def mwfLogsOld : List HabitLog :=
  { habitId := "h1", dateISO := 962, done := some true, value := none, timestamp := "t" } :: mwfLogs

-- ================== SPEC-SIDE SCORE SUMS (restating claim C5's wording) ==================

/-- The score window days paired with their 0-based index, oldest first. -/
def scoreIndexed (n : Nat) (today : Int) : List (Int × Nat) :=
  (getLastNDays n today).zip (List.range (getLastNDays n today).length)

/-- Weight sum over pair lists of the due days (denominator). -/
def dueWeightL (habit : Habit) (l : List (Int × Nat)) : ℚ :=
  ((l.filter (fun p => isHabitDueOnDate habit p.1)).map
    (fun p => (21 / 20 : ℚ) ^ p.2)).sum

/-- Weight sum over pair lists of the due-and-completed days (numerator). -/
def achievedWeightL (habit : Habit) (logs : List HabitLog) (l : List (Int × Nat)) : ℚ :=
  ((l.filter (fun p =>
      isHabitDueOnDate habit p.1 && isHabitCompleted habit (logLookup logs p.1))).map
    (fun p => (21 / 20 : ℚ) ^ p.2)).sum

/-- Spec-side denominator: sum of `1.05^index` over the due days of the window. -/
def dueWeight (habit : Habit) (n : Nat) (today : Int) : ℚ :=
  dueWeightL habit (scoreIndexed n today)

/-- Spec-side numerator: sum of `1.05^index` over the due-and-completed days. -/
def achievedWeight (habit : Habit) (logs : List HabitLog) (n : Nat) (today : Int) : ℚ :=
  achievedWeightL habit logs (scoreIndexed n today)

/-- Invariant of the streak walk: the reported current streak never exceeds
the best or the running streak, and both counters are bounded by the number
of steps taken. -/
def streakInv (acc : StreakAcc) (n : Nat) : Prop :=
  (acc.currentStreak ≤ acc.bestStreak ∨ acc.currentStreak ≤ acc.tempStreak) ∧
    acc.tempStreak ≤ n ∧ acc.bestStreak ≤ n

end Planex

namespace Planex

-- ================== C6: UNDO ==================

/-- C6: `undo()` on a state with a non-empty undo stack replaces
`completionState` wholesale with the most recent snapshot and removes that
snapshot from the stack, leaving `courses` (hence every task's status field),
`personalTasks` and `lectureNotesMeta` unchanged; on an empty stack it
returns the state unchanged. -/
theorem C6_undo_restores_completion (s : PlannerState) (now : String) :
    (s.undoStack = [] → undo s now = s) ∧
    (∀ snap, s.undoStack.getLast? = some snap →
      (undo s now).completionState =
          { completedTaskIds := snap.completedTaskIds,
            completionHistory := snap.completionHistory } ∧
        (undo s now).undoStack = s.undoStack.dropLast ∧
        (undo s now).courses = s.courses ∧
        (undo s now).personalTasks = s.personalTasks ∧
        (undo s now).lectureNotesMeta = s.lectureNotesMeta) := by
  constructor
  · intro h
    simp [undo, plannerReducer, h]
  · intro snap hsnap
    have hne : s.undoStack.length ≠ 0 := by
      intro h0
      rw [List.length_eq_zero.mp h0] at hsnap
      simp at hsnap
    simp [undo, plannerReducer, hne, hsnap]

theorem C6_undo_witness :
    ({ emptyPlannerState with
        undoStack := [{ timestamp := "t0", completedTaskIds := ["a"], completionHistory := [] }]
      } : PlannerState).undoStack.getLast? =
        some { timestamp := "t0", completedTaskIds := ["a"], completionHistory := [] } ∧
      (undo { emptyPlannerState with
        undoStack := [{ timestamp := "t0", completedTaskIds := ["a"], completionHistory := [] }] }
        "now").completionState =
        { completedTaskIds := ["a"], completionHistory := [] } :=
  ⟨rfl,
    ((C6_undo_restores_completion
      { emptyPlannerState with
        undoStack := [{ timestamp := "t0", completedTaskIds := ["a"], completionHistory := [] }] }
      "now").2 _ rfl).1⟩

-- ================== C9: BOUNDED UNDO STACK ==================

/-- C9: PUSH_UNDO_SNAPSHOT keeps the undo stack at no more than 15 entries,
appends the new snapshot as the most recent entry, and when the stack already
held 15 entries evicts exactly the oldest one. -/
theorem C9_undo_stack_bounded (s : PlannerState) (now : String)
    (h : s.undoStack.length ≤ 15) :
    (plannerReducer s .pushUndoSnapshot now).undoStack.length ≤ 15 ∧
    (plannerReducer s .pushUndoSnapshot now).undoStack.getLast? =
      some { timestamp := now,
             completedTaskIds := s.completionState.completedTaskIds,
             completionHistory := s.completionState.completionHistory } ∧
    (s.undoStack.length = 15 →
      (plannerReducer s .pushUndoSnapshot now).undoStack =
        s.undoStack.drop 1 ++
          [{ timestamp := now,
             completedTaskIds := s.completionState.completedTaskIds,
             completionHistory := s.completionState.completionHistory }]) := by
  refine ⟨?_, ?_, ?_⟩
  · simp only [plannerReducer, jsSliceNeg, LIMITS.MAX_UNDO_STACK, List.length_append,
      List.length_drop, List.length_singleton]
    omega
  · simp [plannerReducer, jsSliceNeg]
  · intro h15
    simp only [plannerReducer, jsSliceNeg, h15]
    rfl

theorem C9_undo_stack_bounded_witness :
    (plannerReducer emptyPlannerState .pushUndoSnapshot "now").undoStack.length ≤ 15 ∧
      (plannerReducer emptyPlannerState .pushUndoSnapshot "now").undoStack.getLast? =
        some { timestamp := "now", completedTaskIds := [], completionHistory := [] } :=
  ⟨(C9_undo_stack_bounded emptyPlannerState "now" (by decide)).1,
   (C9_undo_stack_bounded emptyPlannerState "now" (by decide)).2.1⟩

-- ================== C8: addCourse CAPACITY ==================

/-- C8: calling `addCourse` on a state already holding MAX_COURSES (20)
courses leaves the course list unchanged and surfaces an error signal;
below capacity it appends exactly one new course. -/
theorem C8_addCourse_capacity (s : PlannerState) (title : String) (code : Option String)
    (newCourseId newUnitId now : String) :
    (s.courses.length = LIMITS.MAX_COURSES →
      (addCourse s title code newCourseId newUnitId now).courses = s.courses ∧
      (addCourse s title code newCourseId newUnitId now).error = some capacityErrorMsg) ∧
    (s.courses.length < LIMITS.MAX_COURSES →
      (addCourse s title code newCourseId newUnitId now).courses =
        s.courses ++
          [{ id := newCourseId, code := code, title := title,
             color := some (COURSE_COLORS.getD (s.courses.length % COURSE_COLORS.length) ""),
             units := [{ id := newUnitId, title := "Bölüm 1", order := 0, tasks := [] }],
             exams := [], createdAt := now, updatedAt := now }]) := by
  constructor
  · intro h
    have hge : s.courses.length ≥ LIMITS.MAX_COURSES := le_of_eq h.symm
    simp [addCourse, hge, plannerReducer]
  · intro h
    have hlt : ¬ s.courses.length ≥ LIMITS.MAX_COURSES := by omega
    simp [addCourse, hlt, plannerReducer]

theorem C8_addCourse_capacity_witness :
    fullCourseState.courses.length = LIMITS.MAX_COURSES ∧
      (addCourse fullCourseState "T" none "nc" "nu" "now").courses = fullCourseState.courses ∧
      (addCourse fullCourseState "T" none "nc" "nu" "now").error = some capacityErrorMsg ∧
      (addCourse emptyPlannerState "T" none "nc" "nu" "now").courses =
        emptyPlannerState.courses ++
          [{ id := "nc", code := none, title := "T",
             color := some (COURSE_COLORS.getD (emptyPlannerState.courses.length % COURSE_COLORS.length) ""),
             units := [{ id := "nu", title := "Bölüm 1", order := 0, tasks := [] }],
             exams := [], createdAt := "now", updatedAt := "now" }] :=
  ⟨by decide,
   ((C8_addCourse_capacity fullCourseState "T" none "nc" "nu" "now").1 (by decide)).1,
   ((C8_addCourse_capacity fullCourseState "T" none "nc" "nu" "now").1 (by decide)).2,
   (C8_addCourse_capacity emptyPlannerState "T" none "nc" "nu" "now").2 (by decide)⟩

-- ================== C4: everyXDays DUE RULE ==================

/-- C4: for an `everyXDays{interval}` habit, `isHabitDueOnDate` holds exactly
when the days elapsed since creation are non-negative and divisible by the
interval; in particular with interval 2 and creation day 0 the habit is due
on day 0, not due on day 1, and due on day 2. -/
theorem C4_everyXDays_due (h : Habit) (interval : Int)
    (hfreq : h.frequency = .everyXDays interval) :
    (∀ d : Int, isHabitDueOnDate h d = true ↔
      (0 ≤ d - h.createdAt ∧ (d - h.createdAt).emod interval = 0)) ∧
    (h.createdAt = 0 → interval = 2 →
      isHabitDueOnDate h 0 = true ∧
        isHabitDueOnDate h 1 = false ∧
        isHabitDueOnDate h 2 = true) := by
  constructor
  · intro d
    simp [isHabitDueOnDate, hfreq, ge_iff_le]
  · intro hc hi
    subst hi
    simp [isHabitDueOnDate, hfreq, hc]
    decide

theorem C4_everyXDays_due_witness :
    isHabitDueOnDate everyTwoDaysHabit 0 = true ∧
      isHabitDueOnDate everyTwoDaysHabit 1 = false ∧
      isHabitDueOnDate everyTwoDaysHabit 2 = true :=
  (C4_everyXDays_due everyTwoDaysHabit 2 rfl).2 rfl rfl

-- ================== C7: LOG_HABIT LAST-WRITE-WINS ==================

theorem find?_map_replace (m : LogMap) (k : String) (v : List HabitLog)
    (hm : m.any (fun q => q.1 == k) = true) :
    (m.map (fun p => if p.1 == k then (k, v) else p)).find? (fun p => p.1 == k) =
      some (k, v) := by
  induction m with
  | nil => simp at hm
  | cons p m ih =>
    by_cases hp : p.1 = k
    · rw [List.map_cons]
      have hfp : (if (p.1 == k) = true then (k, v) else p) = (k, v) := by simp [hp]
      rw [hfp, List.find?_cons_of_pos _ (by simp)]
    · rw [List.map_cons]
      have hfp : (if (p.1 == k) = true then (k, v) else p) = p := by simp [hp]
      rw [hfp, List.find?_cons_of_neg _ (by simp [hp])]
      exact ih (by simpa [List.any_cons, hp] using hm)

theorem find?_append_absent (m : LogMap) (k : String) (v : List HabitLog)
    (hm : m.any (fun q => q.1 == k) = false) :
    (m ++ [(k, v)]).find? (fun p => p.1 == k) = some (k, v) := by
  induction m with
  | nil => simp
  | cons p m ih =>
    rw [List.any_cons, Bool.or_eq_false_iff] at hm
    rw [List.cons_append, List.find?_cons_of_neg _ (by simp [hm.1])]
    exact ih hm.2

theorem mapGet_mapSet_same (m : LogMap) (k : String) (v : List HabitLog) :
    mapGet (mapSet m k v) k = v := by
  unfold mapGet mapSet
  by_cases hm : m.any (fun q => q.1 == k)
  · rw [if_pos hm, find?_map_replace m k v hm]
    rfl
  · rw [if_neg hm, find?_append_absent m k v (by rwa [Bool.not_eq_true] at hm)]
    rfl

theorem filter_ne_filter_eq_nil (l : List HabitLog) (d : Int) :
    (l.filter (fun x => x.dateISO != d)).filter (fun x => x.dateISO == d) = [] := by
  induction l with
  | nil => rfl
  | cons x l ih =>
    by_cases hx : x.dateISO = d
    · rw [List.filter_cons, if_neg (by simp [hx])]
      exact ih
    · rw [List.filter_cons, if_pos (by simp [hx]), List.filter_cons, if_neg (by simp [hx])]
      exact ih

/-- C7: after a LOG_HABIT dispatch the in-memory log list for the habit holds
exactly one log for the logged date — the newly dispatched log — and logging
the same `(habitId, dateISO)` twice in a row leaves exactly one log carrying
the latest values. -/
theorem C7_logHabit_last_write_wins (s : HabitsState) (habitId : String) (dateISO : Int)
    (done : Option Bool) (value : Option ℚ) (now : String) :
    (mapGet (logHabit s habitId dateISO done value now).habitLogs habitId).filter
        (fun l => l.dateISO == dateISO) =
      [{ habitId := habitId, dateISO := dateISO, done := done, value := value,
         timestamp := now }] ∧
    ∀ (d2 : Option Bool) (v2 : Option ℚ) (n2 : String),
      (mapGet (logHabit (logHabit s habitId dateISO done value now)
            habitId dateISO d2 v2 n2).habitLogs habitId).filter
          (fun l => l.dateISO == dateISO) =
        [{ habitId := habitId, dateISO := dateISO, done := d2, value := v2,
           timestamp := n2 }] := by
  have key : ∀ (s' : HabitsState) (d : Option Bool) (v : Option ℚ) (n : String),
      (mapGet (logHabit s' habitId dateISO d v n).habitLogs habitId).filter
          (fun l => l.dateISO == dateISO) =
        [{ habitId := habitId, dateISO := dateISO, done := d, value := v,
           timestamp := n }] := by
    intro s' d v n
    unfold logHabit habitsReducer
    rw [mapGet_mapSet_same]
    rw [List.filter_append, filter_ne_filter_eq_nil]
    simp
  exact ⟨key s done value now, fun d2 v2 n2 => key _ d2 v2 n2⟩

-- ================== C10: STREAK BOUNDS ==================

theorem streakStep_inv (habit : Habit) (logs : List HabitLog) (endDate : Int)
    (acc : StreakAcc) (i n : Nat) (h : streakInv acc n) :
    streakInv (streakStep habit logs endDate acc i) (n + 1) := by
  obtain ⟨h1, h2, h3⟩ := h
  have hbl : acc.bestStreak ≤ max acc.bestStreak acc.tempStreak := le_max_left _ _
  have hbr : acc.tempStreak ≤ max acc.bestStreak acc.tempStreak := le_max_right _ _
  have hbn : max acc.bestStreak acc.tempStreak ≤ n := max_le h3 h2
  unfold streakStep
  by_cases hdue : isHabitDueOnDate habit (endDate - (i : Int)) = true
  · by_cases hcomp : isHabitCompleted habit (logLookup logs (endDate - (i : Int))) = true
    · simp only [hdue, hcomp, if_true]
      by_cases h30 : i < 30
      · exact ⟨by simp only [if_pos h30]; omega, by simp only; omega, by simp only; omega⟩
      · exact ⟨by simp only [if_neg h30]; omega, by simp only; omega, by simp only; omega⟩
    · simp only [hdue, hcomp, if_true, Bool.false_eq_true, if_false]
      cases hfreq : habit.frequency with
      | weeklyTarget t =>
          by_cases h7 : acc.consecutiveMisses + 1 > 7
          · simp only [if_pos h7]
            exact ⟨by simp only; omega, by simp only; omega, by simp only; omega⟩
          · simp only [if_neg h7]
            exact ⟨by simp only; omega, by simp only; omega, by simp only; omega⟩
      | specificDays ds =>
          exact ⟨by simp only; omega, by simp only; omega, by simp only; omega⟩
      | everyXDays k =>
          exact ⟨by simp only; omega, by simp only; omega, by simp only; omega⟩
  · simp only [Bool.not_eq_true] at hdue
    simp only [hdue, Bool.false_eq_true, if_false]
    exact ⟨h1, by omega, by omega⟩

theorem foldl_streakInv (habit : Habit) (logs : List HabitLog) (endDate : Int) :
    ∀ (l : List Nat) (acc : StreakAcc) (n : Nat), streakInv acc n →
      streakInv (l.foldl (streakStep habit logs endDate) acc) (n + l.length) := by
  intro l
  induction l with
  | nil => intro acc n h; simpa using h
  | cons i l ih =>
    intro acc n h
    have := ih (streakStep habit logs endDate acc i) (n + 1)
      (streakStep_inv habit logs endDate acc i n h)
    simpa [Nat.add_comm, Nat.add_left_comm, Nat.add_assoc] using this

/-- C10: `calculateHabitStreak` always reports `current ≤ best ≤ 365`
(and both are natural numbers, hence non-negative). -/
theorem C10_current_le_best_le_365 (habit : Habit) (logs : List HabitLog) (endDate : Int) :
    (calculateHabitStreak habit logs endDate).1 ≤ (calculateHabitStreak habit logs endDate).2 ∧
      (calculateHabitStreak habit logs endDate).2 ≤ 365 := by
  have h := foldl_streakInv habit logs endDate (List.range 365) ⟨0, 0, 0, 0⟩ 0
    ⟨Or.inl (Nat.le_refl 0), Nat.le_refl 0, Nat.le_refl 0⟩
  rw [List.length_range] at h
  obtain ⟨h1, h2, h3⟩ := h
  unfold calculateHabitStreak
  simp only [Nat.zero_add] at h2 h3
  constructor
  · rcases h1 with h1 | h1
    · exact le_trans h1 (le_max_left _ _)
    · exact le_trans h1 (le_max_right _ _)
  · exact max_le h3 h2

-- ================== C5: WEIGHTED SCORE ==================

theorem score_foldl_eq (habit : Habit) (logs : List HabitLog) :
    ∀ (l : List (Int × Nat)) (a b : ℚ),
      l.foldl
        (fun acc p =>
          let weight : ℚ := (21 / 20 : ℚ) ^ p.2
          if isHabitDueOnDate habit p.1 then
            if isHabitCompleted habit (logLookup logs p.1) then
              (acc.1 + weight, acc.2 + weight)
            else
              (acc.1 + weight, acc.2)
          else acc)
        (a, b) =
      (a + dueWeightL habit l, b + achievedWeightL habit logs l) := by
  intro l
  induction l with
  | nil =>
    intro a b
    simp [dueWeightL, achievedWeightL]
  | cons p l ih =>
    intro a b
    rw [List.foldl_cons]
    by_cases hdue : isHabitDueOnDate habit p.1 = true
    · by_cases hcomp : isHabitCompleted habit (logLookup logs p.1) = true
      · have hd : dueWeightL habit (p :: l) = (21 / 20 : ℚ) ^ p.2 + dueWeightL habit l := by
          simp [dueWeightL, List.filter_cons, hdue]
        have ha : achievedWeightL habit logs (p :: l) =
            (21 / 20 : ℚ) ^ p.2 + achievedWeightL habit logs l := by
          simp [achievedWeightL, List.filter_cons, hdue, hcomp]
        simp only [hdue, hcomp, if_true]
        rw [ih, hd, ha]
        simp only [Prod.mk.injEq]
        constructor <;> rw [add_assoc]
      · have hd : dueWeightL habit (p :: l) = (21 / 20 : ℚ) ^ p.2 + dueWeightL habit l := by
          simp [dueWeightL, List.filter_cons, hdue]
        have ha : achievedWeightL habit logs (p :: l) = achievedWeightL habit logs l := by
          simp [achievedWeightL, List.filter_cons, hdue, hcomp]
        simp only [hdue, hcomp, if_true, Bool.false_eq_true, if_false]
        rw [ih, hd, ha]
        simp only [Prod.mk.injEq]
        exact ⟨by rw [add_assoc], trivial⟩
    · have hd : dueWeightL habit (p :: l) = dueWeightL habit l := by
        simp [dueWeightL, List.filter_cons, hdue]
      have ha : achievedWeightL habit logs (p :: l) = achievedWeightL habit logs l := by
        simp only [Bool.not_eq_true] at hdue
        simp [achievedWeightL, List.filter_cons, hdue]
      simp only [Bool.not_eq_true] at hdue
      simp only [hdue, Bool.false_eq_true, if_false]
      rw [ih, hd, ha]

theorem dueWeightL_nonneg (habit : Habit) (l : List (Int × Nat)) :
    0 ≤ dueWeightL habit l := by
  unfold dueWeightL
  apply List.sum_nonneg
  intro x hx
  rcases List.mem_map.mp hx with ⟨p, _, rfl⟩
  positivity

theorem dueWeightL_eq_zero_iff (habit : Habit) (l : List (Int × Nat)) :
    dueWeightL habit l = 0 ↔ ∀ p ∈ l, ¬ isHabitDueOnDate habit p.1 = true := by
  induction l with
  | nil => simp [dueWeightL]
  | cons p l ih =>
    by_cases hdue : isHabitDueOnDate habit p.1 = true
    · simp only [dueWeightL, List.filter_cons, if_pos hdue, List.map_cons, List.sum_cons]
      constructor
      · intro h0
        exfalso
        have hw : (0 : ℚ) < (21 / 20 : ℚ) ^ p.2 := by positivity
        have hr : 0 ≤ dueWeightL habit l := dueWeightL_nonneg habit l
        rw [dueWeightL] at hr
        linarith
      · intro hall
        exact ((hall p (List.mem_cons_self p l)) hdue).elim
    · have hd : dueWeightL habit (p :: l) = dueWeightL habit l := by
        simp [dueWeightL, List.filter_cons, hdue]
      rw [hd, ih]
      constructor
      · intro h0 q hq
        rcases List.mem_cons.mp hq with rfl | hq
        · exact hdue
        · exact h0 q hq
      · intro hall q hq
        exact hall q (List.mem_cons_of_mem p hq)

theorem scoreIndexed_fst (n : Nat) (today : Int) :
    (scoreIndexed n today).map Prod.fst = getLastNDays n today := by
  unfold scoreIndexed
  exact List.map_fst_zip _ _ (by rw [List.length_range])

/-- C5: `calculateHabitScore` equals `round(100·num/den)` where the
denominator sums the weights `1.05^index` (oldest day has index 0) of the due
days of the window and the numerator those of the due-and-completed days, and
it is 100 exactly when no day of the window was due. -/
theorem C5_score_weighted_ratio (habit : Habit) (logs : List HabitLog) (today : Int) (n : Nat) :
    calculateHabitScore habit logs today n =
      (if dueWeight habit n today = 0 then 100
       else jsRound (achievedWeight habit logs n today / dueWeight habit n today * 100)) ∧
    (dueWeight habit n today = 0 ↔
      ∀ d ∈ getLastNDays n today, isHabitDueOnDate habit d = false) := by
  constructor
  · simp only [calculateHabitScore]
    have hsi : (getLastNDays n today).zip (List.range (getLastNDays n today).length) =
        scoreIndexed n today := rfl
    rw [hsi, score_foldl_eq habit logs (scoreIndexed n today) 0 0]
    simp only [zero_add]
    rfl
  · rw [show dueWeight habit n today = dueWeightL habit (scoreIndexed n today) from rfl,
      dueWeightL_eq_zero_iff]
    constructor
    · intro hall d hd
      rw [← scoreIndexed_fst n today] at hd
      rcases List.mem_map.mp hd with ⟨p, hp, rfl⟩
      have := hall p hp
      rwa [Bool.not_eq_true] at this
    · intro hall p hp
      have hfst : p.1 ∈ getLastNDays n today := by
        rw [← scoreIndexed_fst n today]
        exact List.mem_map_of_mem Prod.fst hp
      rw [hall p.1 hfst]
      simp

-- ================== C3: STREAK SCENARIO AND 30-DAY CURRENT WINDOW ==================

theorem streakStep_congr (habit : Habit) (logs1 logs2 : List HabitLog) (endDate : Int)
    (acc : StreakAcc) (i : Nat)
    (h : isHabitCompleted habit (logLookup logs1 (endDate - (i : Int))) =
      isHabitCompleted habit (logLookup logs2 (endDate - (i : Int)))) :
    streakStep habit logs1 endDate acc i = streakStep habit logs2 endDate acc i := by
  unfold streakStep
  simp only [h]

theorem streakStep_current_high (habit : Habit) (logs : List HabitLog) (endDate : Int)
    (acc : StreakAcc) (i : Nat) (hi : 30 ≤ i) :
    (streakStep habit logs endDate acc i).currentStreak = acc.currentStreak := by
  unfold streakStep
  by_cases hdue : isHabitDueOnDate habit (endDate - (i : Int)) = true
  · by_cases hcomp : isHabitCompleted habit (logLookup logs (endDate - (i : Int))) = true
    · simp only [hdue, hcomp, if_true]
      simp only [if_neg (by omega : ¬ i < 30)]
    · simp only [hdue, hcomp, if_true, Bool.false_eq_true, if_false]
      cases habit.frequency with
      | weeklyTarget t =>
          by_cases h7 : acc.consecutiveMisses + 1 > 7
          · simp only [if_pos h7]
          · simp only [if_neg h7]
      | specificDays ds => simp only
      | everyXDays k => simp only
  · simp only [Bool.not_eq_true] at hdue
    simp only [hdue, Bool.false_eq_true, if_false]

theorem streak_foldl_congr_30 (habit : Habit) (logs1 logs2 : List HabitLog) (endDate : Int)
    (hsame : ∀ i : Nat, i < 30 →
      isHabitCompleted habit (logLookup logs1 (endDate - (i : Int))) =
        isHabitCompleted habit (logLookup logs2 (endDate - (i : Int)))) :
    ∀ k, k ≤ 30 → ∀ acc : StreakAcc,
      (List.range k).foldl (streakStep habit logs1 endDate) acc =
        (List.range k).foldl (streakStep habit logs2 endDate) acc := by
  intro k
  induction k with
  | zero => intro _ acc; rfl
  | succ k ih =>
    intro hk acc
    rw [List.range_succ, List.foldl_append, List.foldl_append, ih (by omega) acc]
    simp only [List.foldl_cons, List.foldl_nil]
    exact streakStep_congr habit logs1 logs2 endDate _ k (hsame k (by omega))

theorem streak_foldl_current_stable (habit : Habit) (logs : List HabitLog) (endDate : Int)
    (acc : StreakAcc) :
    ∀ n, 30 ≤ n →
      ((List.range n).foldl (streakStep habit logs endDate) acc).currentStreak =
        ((List.range 30).foldl (streakStep habit logs endDate) acc).currentStreak := by
  intro n
  induction n with
  | zero => intro h; omega
  | succ n ih =>
    intro hn
    rcases Nat.lt_or_ge 30 (n + 1) with h31 | h31
    · have h30n : 30 ≤ n := by omega
      rw [List.range_succ, List.foldl_append]
      simp only [List.foldl_cons, List.foldl_nil]
      rw [streakStep_current_high habit logs endDate _ n h30n]
      exact ih h30n
    · have : n + 1 = 30 := by omega
      rw [this]

set_option maxRecDepth 8000 in
/-- C3: for the Mon/Wed/Fri habit completed on every due day of the three
weeks ending on day 1002 (nine due days, the last being the end date, no
other logs), `calculateHabitStreak` reports `current = best = 9`; and the
reported current streak depends only on the completion data of the 30 most
recent days of the backward walk. -/
theorem C3_streak_scenario_and_window :
    calculateHabitStreak mwfHabit mwfLogs 1002 = (9, 9) ∧
    ∀ (habit : Habit) (logs1 logs2 : List HabitLog) (endDate : Int),
      (∀ i : Nat, i < 30 →
        isHabitCompleted habit (logLookup logs1 (endDate - (i : Int))) =
          isHabitCompleted habit (logLookup logs2 (endDate - (i : Int)))) →
      (calculateHabitStreak habit logs1 endDate).1 =
        (calculateHabitStreak habit logs2 endDate).1 := by
  constructor
  · decide
  · intro habit logs1 logs2 endDate hsame
    unfold calculateHabitStreak
    simp only
    rw [streak_foldl_current_stable habit logs1 endDate _ 365 (by omega),
      streak_foldl_current_stable habit logs2 endDate _ 365 (by omega),
      streak_foldl_congr_30 habit logs1 logs2 endDate hsame 30 (by omega)]

set_option maxRecDepth 8000 in
theorem C3_streak_scenario_and_window_witness :
    (∀ i : Nat, i < 30 →
      isHabitCompleted mwfHabit (logLookup mwfLogsOld ((1002 : Int) - (i : Int))) =
        isHabitCompleted mwfHabit (logLookup mwfLogs ((1002 : Int) - (i : Int)))) ∧
      (calculateHabitStreak mwfHabit mwfLogsOld 1002).1 =
        (calculateHabitStreak mwfHabit mwfLogs 1002).1 :=
  ⟨by decide, C3_streak_scenario_and_window.2 mwfHabit mwfLogsOld mwfLogs 1002 (by decide)⟩

-- ================== C1 MACHINERY: COUNTING OCCURRENCES ==================

theorem mem_le_sum_map {α : Type} (f : α → Nat) {a : α} {l : List α} (ha : a ∈ l) :
    f a ≤ (l.map f).sum :=
  List.single_le_sum (by simp) _ (List.mem_map_of_mem f ha)

theorem two_mem_le_sum_map {α : Type} (f : α → Nat) {a b : α} {l : List α}
    (ha : a ∈ l) (hb : b ∈ l) (hne : a ≠ b) : f a + f b ≤ (l.map f).sum := by
  induction l with
  | nil => simp at ha
  | cons x l ih =>
    rw [List.map_cons, List.sum_cons]
    rcases List.mem_cons.mp ha with rfl | ha'
    · have hb' : b ∈ l := by
        rcases List.mem_cons.mp hb with rfl | hb'
        · exact absurd rfl hne
        · exact hb'
      have := mem_le_sum_map f hb'
      omega
    · rcases List.mem_cons.mp hb with rfl | hb'
      · have := mem_le_sum_map f ha'
        omega
      · have := ih ha' hb'
        omega

theorem countP_flatMap {α β : Type} (p : β → Bool) (f : α → List β) (l : List α) :
    (l.flatMap f).countP p = (l.map (fun a => (f a).countP p)).sum := by
  induction l with
  | nil => rfl
  | cons a l ih =>
    rw [List.flatMap_cons, List.countP_append, List.map_cons, List.sum_cons, ih]

theorem cntC_eq_sum (taskId : String) (c : Course) :
    cntC taskId c = (c.units.map (cntU taskId)).sum := by
  unfold cntC courseTasks cntU
  exact countP_flatMap _ _ _

theorem cntTask_eq_sum (taskId : String) (courses : List Course) :
    cntTask taskId courses = (courses.map (cntC taskId)).sum := by
  unfold cntTask tasksOf cntC
  exact countP_flatMap _ _ _

theorem cntTask_le_one_of_nodup (courses : List Course) (taskId : String)
    (h : taskIdsNodup courses) : cntTask taskId courses ≤ 1 := by
  have hc := List.nodup_iff_count_le_one.mp h taskId
  have : cntTask taskId courses = ((tasksOf courses).map Task.id).count taskId := by
    unfold cntTask
    rw [List.count_eq_countP, List.countP_map]
    rfl
  omega

theorem cntU_pos_of_mem (taskId : String) (u : Unit) {t : Task}
    (ht : t ∈ u.tasks) (hid : t.id = taskId) : 0 < cntU taskId u :=
  List.countP_pos_iff.mpr ⟨t, ht, by simp [hid]⟩

theorem cntC_pos_of_mem (taskId : String) (c : Course) {u : Unit} {t : Task}
    (hu : u ∈ c.units) (ht : t ∈ u.tasks) (hid : t.id = taskId) : 0 < cntC taskId c := by
  apply List.countP_pos_iff.mpr
  exact ⟨t, List.mem_flatMap.mpr ⟨u, hu, ht⟩, by simp [hid]⟩

theorem findUnit_eq_none_of_cnt_zero (taskId : String) (c : Course)
    (h : cntC taskId c = 0) :
    c.units.find? (fun u => u.tasks.any (fun t => t.id == taskId)) = none := by
  rw [List.find?_eq_none]
  intro u hu hany
  rcases List.any_eq_true.mp hany with ⟨t, ht, hid⟩
  have h1 : 0 < cntU taskId u := List.countP_pos_iff.mpr ⟨t, ht, hid⟩
  have h2 : cntU taskId u ≤ (c.units.map (cntU taskId)).sum := mem_le_sum_map _ hu
  rw [cntC_eq_sum] at h
  omega

theorem map_updTask_of_cnt_zero (taskId : String) (st : TaskStatus) (now : String)
    (l : List Task) (h : l.countP (fun t => t.id == taskId) = 0) :
    l.map (updTask taskId st now) = l := by
  induction l with
  | nil => rfl
  | cons t l ih =>
    rw [List.countP_cons] at h
    by_cases hp : (t.id == taskId) = true
    · rw [if_pos hp] at h
      omega
    · rw [if_neg hp] at h
      rw [List.map_cons, ih (by omega)]
      simp only [updTask, if_neg hp]

theorem flatMap_congr_mem {α β : Type} {l : List α} {f g : α → List β}
    (h : ∀ a ∈ l, f a = g a) : l.flatMap f = l.flatMap g := by
  induction l with
  | nil => rfl
  | cons a l ih =>
    rw [List.flatMap_cons, List.flatMap_cons, h a (List.mem_cons_self a l),
      ih (fun x hx => h x (List.mem_cons_of_mem a hx))]

/-- Under global uniqueness of `taskId` occurrences, the targeted
UPDATE_TASK_STATUS course rewrite acts on the flattened task list as the
plain per-task rewrite, provided the targeted path really holds the task
(or no task carries the id at all). -/
theorem tasksOf_updateTaskStatusInCourses (courses : List Course)
    (courseId unitId taskId : String) (st : TaskStatus) (now : String)
    (hcnt : cntTask taskId courses ≤ 1)
    (hloc : cntTask taskId courses = 0 ∨ locatesTask courses courseId unitId taskId) :
    tasksOf (updateTaskStatusInCourses courses courseId unitId taskId st now) =
      (tasksOf courses).map (updTask taskId st now) := by
  unfold updateTaskStatusInCourses tasksOf
  rw [List.flatMap_map, List.map_flatMap]
  apply flatMap_congr_mem
  intro c hc
  by_cases hzero : cntC taskId c = 0
  · have hUnitZero : ∀ u ∈ c.units, cntU taskId u = 0 := by
      intro u hu
      have h2 := mem_le_sum_map (cntU taskId) hu
      rw [← cntC_eq_sum] at h2
      omega
    have hrhs : (courseTasks c).map (updTask taskId st now) = courseTasks c :=
      map_updTask_of_cnt_zero taskId st now _ hzero
    rw [hrhs]
    by_cases hcid : (c.id == courseId) = true
    · rw [if_pos hcid]
      simp only [courseTasks]
      rw [List.flatMap_map]
      apply flatMap_congr_mem
      intro u hu
      by_cases huid : (u.id == unitId) = true
      · rw [if_pos huid]
        exact map_updTask_of_cnt_zero taskId st now _ (hUnitZero u hu)
      · rw [if_neg huid]
    · rw [if_neg hcid]
  · rcases hloc with h0 | hloc
    · exfalso
      have := mem_le_sum_map (cntC taskId) hc
      rw [← cntTask_eq_sum] at this
      omega
    obtain ⟨cs, hcs, hcsid, u', hu', huid', t', ht', htid'⟩ := hloc
    have hcspos : 0 < cntC taskId cs := cntC_pos_of_mem taskId cs hu' ht' htid'
    have hceq : c = cs := by
      by_contra hne
      have h2 := two_mem_le_sum_map (cntC taskId) hc hcs hne
      rw [← cntTask_eq_sum] at h2
      omega
    subst hceq
    have hcid : (c.id == courseId) = true := by simp [hcsid]
    rw [if_pos hcid]
    simp only [courseTasks]
    rw [List.flatMap_map, List.map_flatMap]
    apply flatMap_congr_mem
    intro u hu
    by_cases huz : cntU taskId u = 0
    · have hmapz : u.tasks.map (updTask taskId st now) = u.tasks :=
        map_updTask_of_cnt_zero taskId st now _ huz
      by_cases huid : (u.id == unitId) = true
      · rw [if_pos huid]
      · rw [if_neg huid]
        exact hmapz.symm
    · have hupos : 0 < cntU taskId u' := cntU_pos_of_mem taskId u' ht' htid'
      have hueq : u = u' := by
        by_contra hne
        have h2 := two_mem_le_sum_map (cntU taskId) hu hu' hne
        rw [← cntC_eq_sum] at h2
        have h3 := mem_le_sum_map (cntC taskId) hc
        rw [← cntTask_eq_sum] at h3
        omega
      subst hueq
      have huid : (u.id == unitId) = true := by simp [huid']
      rw [if_pos huid]

/-- The TOGGLE course scan leaves the accumulator untouched when no course
contains the task. -/
theorem toggle_foldl_none (orig : List Course) (taskId : String) (st : TaskStatus)
    (now : String) :
    ∀ (cs : List Course) (acc : List Course),
      (∀ c ∈ cs, c.units.find? (fun u => u.tasks.any (fun t => t.id == taskId)) = none) →
      cs.foldl
        (fun acc course =>
          match course.units.find? (fun u => u.tasks.any (fun t => t.id == taskId)) with
          | some unit => updateTaskStatusInCourses orig course.id unit.id taskId st now
          | none => acc)
        acc = acc := by
  intro cs
  induction cs with
  | nil => intro acc _; rfl
  | cons c cs ih =>
    intro acc h
    rw [List.foldl_cons]
    have hc := h c (List.mem_cons_self c cs)
    simp only [hc]
    exact ih acc (fun c' hc' => h c' (List.mem_cons_of_mem c hc'))

/-- With exactly one occurrence of the task, the TOGGLE course scan produces
the targeted rewrite anchored at the unique hit. -/
theorem toggle_foldl_one (orig : List Course) (taskId : String) (st : TaskStatus)
    (now : String) :
    ∀ (cs : List Course) (acc : List Course),
      (cs.map (cntC taskId)).sum = 1 →
      ∃ c₀ u₀, c₀ ∈ cs ∧
        c₀.units.find? (fun u => u.tasks.any (fun t => t.id == taskId)) = some u₀ ∧
        cs.foldl
          (fun acc course =>
            match course.units.find? (fun u => u.tasks.any (fun t => t.id == taskId)) with
            | some unit => updateTaskStatusInCourses orig course.id unit.id taskId st now
            | none => acc)
          acc = updateTaskStatusInCourses orig c₀.id u₀.id taskId st now := by
  intro cs
  induction cs with
  | nil => intro acc h; simp at h
  | cons c cs ih =>
    intro acc h1
    rw [List.map_cons, List.sum_cons] at h1
    by_cases hc : cntC taskId c = 0
    · have hnone := findUnit_eq_none_of_cnt_zero taskId c hc
      rw [List.foldl_cons]
      simp only [hnone]
      have hrest : (cs.map (cntC taskId)).sum = 1 := by omega
      obtain ⟨c₀, u₀, hmem, hfind, heq⟩ := ih acc hrest
      exact ⟨c₀, u₀, List.mem_cons_of_mem c hmem, hfind, heq⟩
    · have hcpos : 0 < cntC taskId c := Nat.pos_of_ne_zero hc
      have hrest : (cs.map (cntC taskId)).sum = 0 := by omega
      have hex : ∃ u ∈ c.units, u.tasks.any (fun t => t.id == taskId) = true := by
        rcases List.countP_pos_iff.mp hcpos with ⟨t, ht, hid⟩
        rcases List.mem_flatMap.mp ht with ⟨u, hu, htu⟩
        exact ⟨u, hu, List.any_eq_true.mpr ⟨t, htu, hid⟩⟩
      obtain ⟨u₁, hu₁, hq₁⟩ := hex
      obtain ⟨u₀, hfind⟩ : ∃ u₀,
          c.units.find? (fun u => u.tasks.any (fun t => t.id == taskId)) = some u₀ := by
        cases hf : c.units.find? (fun u => u.tasks.any (fun t => t.id == taskId)) with
        | none => exact absurd hq₁ (List.find?_eq_none.mp hf u₁ hu₁)
        | some u₀ => exact ⟨u₀, rfl⟩
      rw [List.foldl_cons]
      simp only [hfind]
      rw [toggle_foldl_none orig taskId st now cs _
        (fun c' hc' => findUnit_eq_none_of_cnt_zero taskId c'
          (by have := mem_le_sum_map (cntC taskId) hc'; omega))]
      exact ⟨c, u₀, List.mem_cons_self c cs, hfind, rfl⟩

/-- Under global uniqueness of `taskId` occurrences, the whole TOGGLE course
scan acts on the flattened task list as the plain per-task rewrite. -/
theorem tasksOf_toggleCoursesUpdate (courses : List Course) (taskId : String)
    (st : TaskStatus) (now : String) (hcnt : cntTask taskId courses ≤ 1) :
    tasksOf (toggleCoursesUpdate courses taskId st now) =
      (tasksOf courses).map (updTask taskId st now) := by
  unfold toggleCoursesUpdate
  by_cases h0 : cntTask taskId courses = 0
  · rw [toggle_foldl_none courses taskId st now courses courses
      (fun c hc => findUnit_eq_none_of_cnt_zero taskId c
        (by
          have := mem_le_sum_map (cntC taskId) hc
          rw [← cntTask_eq_sum] at this
          omega))]
    exact (map_updTask_of_cnt_zero taskId st now (tasksOf courses) h0).symm
  · have h1 : (courses.map (cntC taskId)).sum = 1 := by
      rw [← cntTask_eq_sum]
      omega
    obtain ⟨c₀, u₀, hmem, hfind, heq⟩ := toggle_foldl_one courses taskId st now courses courses h1
    rw [heq]
    apply tasksOf_updateTaskStatusInCourses courses c₀.id u₀.id taskId st now hcnt
    right
    have hu₀ := List.mem_of_find?_eq_some hfind
    have hq := List.find?_some hfind
    rcases List.any_eq_true.mp hq with ⟨t, ht, hid⟩
    exact ⟨c₀, hmem, rfl, u₀, hu₀, rfl, t, ht, by simpa using hid⟩

theorem syncInvariant_iff (s : PlannerState) :
    syncInvariant s ↔ ∀ t ∈ tasksOf s.courses,
      (t.id ∈ s.completionState.completedTaskIds ↔ t.status = TaskStatus.done) := by
  unfold syncInvariant tasksOf courseTasks
  constructor
  · intro h t ht
    rcases List.mem_flatMap.mp ht with ⟨c, hc, htc⟩
    rcases List.mem_flatMap.mp htc with ⟨u, hu, htu⟩
    exact h c hc u hu t htu
  · intro h c hc u hu t ht
    exact h t (List.mem_flatMap.mpr ⟨c, hc, List.mem_flatMap.mpr ⟨u, hu, ht⟩⟩)

/-- Transfer of the synchronization relation across the per-task rewrite:
if the id list changes only at `taskId` and membership of `taskId` matches
the new status being done, the relation carries over. -/
theorem inv_after_updTask (tasks : List Task) (ids newIds : List String) (taskId : String)
    (st : TaskStatus) (now : String)
    (h1 : ∀ x, x ≠ taskId → (x ∈ newIds ↔ x ∈ ids))
    (h2 : taskId ∈ newIds ↔ st = TaskStatus.done)
    (hinv : ∀ t ∈ tasks, (t.id ∈ ids ↔ t.status = TaskStatus.done)) :
    ∀ t' ∈ tasks.map (updTask taskId st now), (t'.id ∈ newIds ↔ t'.status = TaskStatus.done) := by
  intro t' ht'
  rcases List.mem_map.mp ht' with ⟨t, ht, rfl⟩
  by_cases hid : t.id = taskId
  · have hupd : updTask taskId st now t = { t with status := st, updatedAt := now } := by
      simp [updTask, hid]
    rw [hupd]
    simpa [hid] using h2
  · have hupd : updTask taskId st now t = t := by
      simp [updTask, hid]
    rw [hupd, h1 t.id hid]
    exact hinv t ht

/-- C1 (amended): in a state satisfying the synchronization invariant whose
task ids are globally unique, the invariant is preserved by every
`toggleTaskCompletion(taskId)`, and by every
`updateTaskStatus(taskId, status, courseId, unitId)` whose `courseId`/`unitId`
actually locate the task with id `taskId` (or for which no stored task
carries the id at all). -/
theorem C1_sync_invariant_amended (s : PlannerState) (hinv : syncInvariant s)
    (huniq : taskIdsNodup s.courses) :
    (∀ taskId now, syncInvariant (toggleTaskCompletion s taskId now)) ∧
    (∀ taskId status courseId unitId now,
      (locatesTask s.courses courseId unitId taskId ∨ taskAbsent s.courses taskId) →
      syncInvariant (updateTaskStatus s taskId status courseId unitId now)) := by
  have hflat := (syncInvariant_iff s).mp hinv
  constructor
  · intro taskId now
    rw [syncInvariant_iff]
    by_cases hc : s.completionState.completedTaskIds.contains taskId = true
    · have hm : taskId ∈ s.completionState.completedTaskIds := List.elem_iff.mp hc
      have hcourses : (toggleTaskCompletion s taskId now).courses =
          toggleCoursesUpdate s.courses taskId TaskStatus.todo now := by
        simp [toggleTaskCompletion, plannerReducer, hc, hm]
      have hids : (toggleTaskCompletion s taskId now).completionState.completedTaskIds =
          s.completionState.completedTaskIds.filter (fun id => id != taskId) := by
        simp [toggleTaskCompletion, plannerReducer, hc, hm]
      rw [hcourses, hids,
        tasksOf_toggleCoursesUpdate s.courses taskId TaskStatus.todo now
          (cntTask_le_one_of_nodup s.courses taskId huniq)]
      apply inv_after_updTask _ _ _ _ _ _ _ _ hflat
      · intro x hx
        simp [List.mem_filter, hx]
      · simp [List.mem_filter]
    · have hm : taskId ∉ s.completionState.completedTaskIds :=
        fun h => hc (List.elem_iff.mpr h)
      have hcourses : (toggleTaskCompletion s taskId now).courses =
          toggleCoursesUpdate s.courses taskId TaskStatus.done now := by
        simp [toggleTaskCompletion, plannerReducer, hc, hm]
      have hids : (toggleTaskCompletion s taskId now).completionState.completedTaskIds =
          s.completionState.completedTaskIds ++ [taskId] := by
        simp [toggleTaskCompletion, plannerReducer, hc, hm]
      rw [hcourses, hids,
        tasksOf_toggleCoursesUpdate s.courses taskId TaskStatus.done now
          (cntTask_le_one_of_nodup s.courses taskId huniq)]
      apply inv_after_updTask _ _ _ _ _ _ _ _ hflat
      · intro x hx
        simp [List.mem_append, hx]
      · simp
  · intro taskId status courseId unitId now hloc
    rw [syncInvariant_iff]
    have hloc' : cntTask taskId s.courses = 0 ∨ locatesTask s.courses courseId unitId taskId := by
      rcases hloc with hl | habs
      · exact Or.inr hl
      · left
        apply List.countP_eq_zero.mpr
        intro t ht
        simpa using habs t ht
    have hcourses : (updateTaskStatus s taskId status courseId unitId now).courses =
        updateTaskStatusInCourses s.courses courseId unitId taskId status now := by
      simp [updateTaskStatus, plannerReducer]
    rw [hcourses,
      tasksOf_updateTaskStatusInCourses s.courses courseId unitId taskId status now
        (cntTask_le_one_of_nodup s.courses taskId huniq) hloc']
    by_cases hst : status = TaskStatus.done
    · by_cases hc : s.completionState.completedTaskIds.contains taskId = true
      · have hm : taskId ∈ s.completionState.completedTaskIds := List.elem_iff.mp hc
        have hids : (updateTaskStatus s taskId status courseId unitId now).completionState.completedTaskIds =
            s.completionState.completedTaskIds := by
          simp [updateTaskStatus, plannerReducer, hst, hc, hm]
        rw [hids]
        apply inv_after_updTask _ _ _ _ _ _ _ _ hflat
        · intro x _; exact Iff.rfl
        · rw [hst]
          simp only [iff_true]
          exact hm
      · have hm : taskId ∉ s.completionState.completedTaskIds :=
          fun h => hc (List.elem_iff.mpr h)
        have hids : (updateTaskStatus s taskId status courseId unitId now).completionState.completedTaskIds =
            s.completionState.completedTaskIds ++ [taskId] := by
          simp [updateTaskStatus, plannerReducer, hst, hc, hm]
        rw [hids]
        apply inv_after_updTask _ _ _ _ _ _ _ _ hflat
        · intro x hx
          simp [List.mem_append, hx]
        · simp [hst]
    · by_cases hc : s.completionState.completedTaskIds.contains taskId = true
      · have hm : taskId ∈ s.completionState.completedTaskIds := List.elem_iff.mp hc
        have hids : (updateTaskStatus s taskId status courseId unitId now).completionState.completedTaskIds =
            s.completionState.completedTaskIds.filter (fun id => id != taskId) := by
          simp [updateTaskStatus, plannerReducer, hst, hc, hm]
        rw [hids]
        apply inv_after_updTask _ _ _ _ _ _ _ _ hflat
        · intro x hx
          simp [List.mem_filter, hx]
        · simp [List.mem_filter, hst]
      · have hm : taskId ∉ s.completionState.completedTaskIds :=
          fun h => hc (List.elem_iff.mpr h)
        have hids : (updateTaskStatus s taskId status courseId unitId now).completionState.completedTaskIds =
            s.completionState.completedTaskIds := by
          simp [updateTaskStatus, plannerReducer, hst, hc, hm]
        rw [hids]
        apply inv_after_updTask _ _ _ _ _ _ _ _ hflat
        · intro x _; exact Iff.rfl
        · constructor
          · intro hmem
            exact absurd hmem hm
          · intro hd
            exact absurd hd hst

/-- C1 (counterexample to the claim as stated): with two task occurrences
sharing an id, the toggle scan updates only the last hit, breaking the
invariant; and `updateTaskStatus` aimed at a course/unit that does not hold
the task updates the id set but no task status. -/
theorem C1_counterexample :
    (syncInvariant dupIdState ∧
      ¬ syncInvariant (toggleTaskCompletion dupIdState "t1" "now")) ∧
    (syncInvariant singleTaskState ∧
      ¬ syncInvariant (updateTaskStatus singleTaskState "t1" TaskStatus.done "cX" "uX" "now")) :=
  ⟨⟨by decide, by decide⟩, ⟨by decide, by decide⟩⟩

theorem C1_sync_invariant_amended_witness :
    (syncInvariant singleTaskState ∧ taskIdsNodup singleTaskState.courses) ∧
      syncInvariant (toggleTaskCompletion singleTaskState "t1" "now") ∧
      syncInvariant (updateTaskStatus singleTaskState "t1" TaskStatus.done "c1" "u1" "now") :=
  ⟨⟨by decide, by decide⟩,
   (C1_sync_invariant_amended singleTaskState (by decide) (by decide)).1 "t1" "now",
   (C1_sync_invariant_amended singleTaskState (by decide) (by decide)).2
     "t1" TaskStatus.done "c1" "u1" "now" (Or.inl (by decide))⟩

-- ================== C2: REFERENTIAL INVARIANT AND DELETES ==================

/-- C2 (amended): DELETE_TASK purges the deleted id from both
`completedTaskIds` and `completionHistory`, and it preserves the referential
invariant. (Deleting a unit or a course removes the contained tasks WITHOUT
purging completion state, so those deletes can break the invariant — see the
counterexample.) -/
theorem C2_delete_task_cascade (s : PlannerState) (courseId unitId taskId now : String)
    (hinv : refInvariant s) :
    taskId ∉ (plannerReducer s (.deleteTask courseId unitId taskId) now).completionState.completedTaskIds ∧
    histLookup
      (plannerReducer s (.deleteTask courseId unitId taskId) now).completionState.completionHistory
      taskId = none ∧
    refInvariant (plannerReducer s (.deleteTask courseId unitId taskId) now) := by
  refine ⟨?_, ?_, ?_⟩
  · intro hmem
    have hmem' : taskId ∈ s.completionState.completedTaskIds.filter (fun id => id != taskId) :=
      hmem
    have := List.of_mem_filter hmem'
    simp at this
  · show histLookup (histDelete s.completionState.completionHistory taskId) taskId = none
    unfold histLookup
    rw [List.find?_eq_none.mpr]
    · rfl
    · intro p hp
      have := List.of_mem_filter hp
      simp at this ⊢
      exact this
  · intro id hid
    have hid' : id ∈ s.completionState.completedTaskIds.filter (fun id => id != taskId) := hid
    have hmem := List.mem_filter.mp hid'
    have hne : id ≠ taskId := by simpa using hmem.2
    obtain ⟨c, hc, u, hu, t, ht, htid⟩ := hinv id hmem.1
    have htkeep : ∀ (ts : List Task), t ∈ ts → t ∈ ts.filter (fun t => t.id != taskId) := by
      intro ts hts
      exact List.mem_filter.mpr ⟨hts, by simp [htid, hne]⟩
    by_cases hcid : (c.id == courseId) = true
    · refine ⟨{ c with
          units := c.units.map fun u =>
            if u.id == unitId then
              { u with tasks := u.tasks.filter (fun t => t.id != taskId) }
            else u,
          updatedAt := now }, ?_, ?_⟩
      · show _ ∈ (plannerReducer s (.deleteTask courseId unitId taskId) now).courses
        simp only [plannerReducer]
        have := List.mem_map_of_mem (fun c =>
          if (c.id == courseId) = true then
            { c with
              units := c.units.map fun u =>
                if u.id == unitId then
                  { u with tasks := u.tasks.filter (fun t => t.id != taskId) }
                else u,
              updatedAt := now }
          else c) hc
        simpa [hcid] using this
      · by_cases huid : (u.id == unitId) = true
        · refine ⟨{ u with tasks := u.tasks.filter (fun t => t.id != taskId) }, ?_, t, htkeep _ ht, htid⟩
          have := List.mem_map_of_mem (fun u =>
            if (u.id == unitId) = true then
              { u with tasks := u.tasks.filter (fun t => t.id != taskId) }
            else u) hu
          simpa [huid] using this
        · refine ⟨u, ?_, t, ht, htid⟩
          have := List.mem_map_of_mem (fun u =>
            if (u.id == unitId) = true then
              { u with tasks := u.tasks.filter (fun t => t.id != taskId) }
            else u) hu
          simpa [huid] using this
    · refine ⟨c, ?_, u, hu, t, ht, htid⟩
      show _ ∈ (plannerReducer s (.deleteTask courseId unitId taskId) now).courses
      simp only [plannerReducer]
      have := List.mem_map_of_mem (fun c =>
        if (c.id == courseId) = true then
          { c with
            units := c.units.map fun u =>
              if u.id == unitId then
                { u with tasks := u.tasks.filter (fun t => t.id != taskId) }
              else u,
            updatedAt := now }
        else c) hc
      simpa [hcid] using this

/-- C2 (counterexample to the claim as stated): DELETE_COURSE removes the
course's tasks but leaves their ids in `completedTaskIds`, so a cascading
course delete violates the referential invariant. -/
theorem C2_counterexample :
    refInvariant completedTaskState ∧
      ¬ refInvariant (plannerReducer completedTaskState (.deleteCourse "c1") "now") :=
  ⟨by decide, by decide⟩

theorem C2_delete_task_cascade_witness :
    refInvariant completedTaskState ∧
      "t1" ∉ (plannerReducer completedTaskState (.deleteTask "c1" "u1" "t1") "now").completionState.completedTaskIds ∧
      histLookup
        (plannerReducer completedTaskState (.deleteTask "c1" "u1" "t1") "now").completionState.completionHistory
        "t1" = none ∧
      refInvariant (plannerReducer completedTaskState (.deleteTask "c1" "u1" "t1") "now") :=
  ⟨by decide,
   (C2_delete_task_cascade completedTaskState "c1" "u1" "t1" "now" (by decide)).1,
   (C2_delete_task_cascade completedTaskState "c1" "u1" "t1" "now" (by decide)).2.1,
   (C2_delete_task_cascade completedTaskState "c1" "u1" "t1" "now" (by decide)).2.2⟩

end Planex
